import Mathlib

/-!
Shallow embedding of the `moonshine_behavior` transition engine.

The embedding follows the Rust source of the repository:

* `src/src/lib.rs` — the `Behavior` policy trait, the `BehaviorHooks`
  invocation helpers, the `BehaviorMutItem` operations `push`, `pop`,
  `interrupt` and `clear`, the read-only query surface
  (`iter`/`enumerate`/`has_index`/`index`/`Index`), and `BehaviorIndex`.
* `src/src/transition.rs` — the `Transition` request, the
  `TransitionQueue` with its `update` bookkeeping, and the per-entity
  body of the `transition` system (modelled here as `tick`).

A behavior value is an element of an arbitrary type `T`.  The policy
surface of the `Behavior` trait is a record of boolean functions.  The
lifecycle hooks have no observable effect inside the engine other than
their invocation order, so the engine is modelled to record every hook
invocation and every triggered event in a single trace list, in the
exact order the Rust code invokes hooks and queues event triggers.
-/

namespace MoonshineBehavior

/-- Policy surface of the `Behavior` trait (`src/src/lib.rs`):
`filter_next`, `filter_yield` and `is_resumable`. -/
structure Behavior (T : Type) where
  filter_next : T → T → Bool
  filter_yield : T → T → Bool
  is_resumable : T → Bool

/-- Position of a behavior in the conceptual stack (`BehaviorIndex` in
`src/src/lib.rs`, a `usize` newtype). -/
structure BehaviorIndex where
  val : Nat
deriving DecidableEq, Repr

/-- The index of the initial behavior (`BehaviorIndex::initial`). -/
def BehaviorIndex.initial : BehaviorIndex := ⟨0⟩

/-- The index of the behavior before this one, if it exists
(`BehaviorIndex::previous`); `saturating_sub` on `usize` is `Nat`
subtraction. -/
def BehaviorIndex.previous (i : BehaviorIndex) : Option BehaviorIndex :=
  if i = BehaviorIndex.initial then Option.none else some ⟨i.val - 1⟩

/-- The index after this one (`BehaviorIndex::next`); `saturating_add`
never overflows in the model. -/
def BehaviorIndex.next (i : BehaviorIndex) : BehaviorIndex := ⟨i.val + 1⟩

/-- A recorded invocation of one of the lifecycle hooks of the
`Behavior` trait. The first argument is the receiver (`self`). -/
inductive HookCall (T : Type) where
  | on_start (receiver : T) (previous : Option T)
  | on_pause (receiver : T) (current : T)
  | on_resume (receiver : T) (previous : T)
  | on_stop (receiver : T) (current : T)
  | on_activate (receiver : T) (previous : Option T)
  | on_suspend (receiver : T) (current : T)
deriving DecidableEq, Repr

/-- Transition failures (`TransitionError` in `src/src/transition.rs`). -/
inductive TransitionError (T : Type) where
  | RejectedNext (behavior : T)
  | NoPrevious
deriving DecidableEq, Repr

/-- Events triggered by the engine (`OnStart`/`OnPause`/`OnResume`/
`OnActivate`/`OnStop`/`OnError` triggered in `src/src/lib.rs`, plus the
`Start` event triggered by the `is_added` bootstrap in
`src/src/transition.rs`, modelled as `StartAdded` since that event
carries only an index). -/
inductive BehaviorEvent (T : Type) where
  | Start (index : BehaviorIndex) (initFlag : Bool)
  | Pause (index : BehaviorIndex)
  | Resume (index : BehaviorIndex)
  | Activate (index : BehaviorIndex) (resume : Bool) (initFlag : Bool)
  | Stop (index : BehaviorIndex) (behavior : T) (interrupt : Bool)
  | Error (error : TransitionError T)
  | StartAdded (index : BehaviorIndex)
deriving DecidableEq, Repr

/-- One entry of the observable trace of the engine: either a lifecycle
hook invocation (synchronous) or a triggered event (deferred through the
command queue); both are recorded in the order the code produces them. -/
inductive TraceItem (T : Type) where
  | hook (h : HookCall T)
  | evt (e : BehaviorEvent T)
deriving DecidableEq, Repr

/-- Trace of `BehaviorHooks::invoke_start`: `on_start` then `on_activate`. -/
def invoke_start {T : Type} (b : T) (previous : Option T) : List (TraceItem T) :=
  [.hook (.on_start b previous), .hook (.on_activate b previous)]

/-- Trace of `BehaviorHooks::invoke_pause`: `on_suspend` then `on_pause`. -/
def invoke_pause {T : Type} (b current : T) : List (TraceItem T) :=
  [.hook (.on_suspend b current), .hook (.on_pause b current)]

/-- Trace of `BehaviorHooks::invoke_resume`: `on_resume` then `on_activate`. -/
def invoke_resume {T : Type} (b previous : T) : List (TraceItem T) :=
  [.hook (.on_resume b previous), .hook (.on_activate b (some previous))]

/-- Trace of `BehaviorHooks::invoke_stop`: `on_suspend` then `on_stop`. -/
def invoke_stop {T : Type} (b current : T) : List (TraceItem T) :=
  [.hook (.on_suspend b current), .hook (.on_stop b current)]

/-- The behavior data owned by one entity: the current `Behavior`
component value and the `Memory` stack (a `Vec`, bottom of the stack
first, top of the stack last, exactly as the Rust `Vec<T>`). -/
structure BehaviorState (T : Type) where
  current : T
  memory : List T
deriving DecidableEq, Repr

/-- The `BehaviorIndex` of the current behavior
(`BehaviorMutItem::index`, `src/src/lib.rs`): the length of `Memory`. -/
def BehaviorState.index {T : Type} (s : BehaviorState T) : BehaviorIndex :=
  ⟨s.memory.length⟩

/-- Embedding of `BehaviorMutItem::push` (`src/src/lib.rs`).  Returns
the state after the operation, the trace of hook invocations and
triggered events in code order, and the success flag. -/
def push {T : Type} (P : Behavior T) (s : BehaviorState T) (next : T) :
    BehaviorState T × List (TraceItem T) × Bool :=
  if P.filter_next s.current next then
    let previous := s.current
    let current := next
    let startTrace := invoke_start current (some previous)
    let index := s.memory.length
    if P.is_resumable previous then
      (⟨current, s.memory ++ [previous]⟩,
        startTrace ++ invoke_pause previous current ++
          [.evt (.Pause ⟨index⟩), .evt (.Start ⟨index + 1⟩ false),
            .evt (.Activate ⟨index + 1⟩ false false)],
        true)
    else
      (⟨current, s.memory⟩,
        startTrace ++ invoke_stop previous current ++
          [.evt (.Stop ⟨index⟩ previous false), .evt (.Start ⟨index⟩ false),
            .evt (.Activate ⟨index⟩ false false)],
        true)
  else
    (s, [.evt (.Error (.RejectedNext next))], false)

/-- Embedding of `BehaviorMutItem::pop` (`src/src/lib.rs`).  The `Vec`
pop removes the last element of `memory`; the new current's
`invoke_resume` runs before the displaced behavior's `invoke_stop`,
exactly as in the source. -/
def pop {T : Type} (s : BehaviorState T) :
    BehaviorState T × List (TraceItem T) × Bool :=
  let index := s.memory.length
  match s.memory.getLast? with
  | some next =>
      let next_index := s.memory.dropLast.length
      let previous := s.current
      let current := next
      (⟨current, s.memory.dropLast⟩,
        invoke_resume current previous ++ invoke_stop previous current ++
          [.evt (.Stop ⟨index⟩ previous false), .evt (.Resume ⟨next_index⟩),
            .evt (.Activate ⟨next_index⟩ true false)],
        true)
  | Option.none => (s, [.evt (.Error .NoPrevious)], false)

/-- The unwind loop of `BehaviorMutItem::interrupt` (`src/src/lib.rs`):
while the current behavior yields to `next` and `Memory` is non-empty,
pop the top of `Memory` into the current slot and stop the displaced
behavior with an interrupt-flagged `Stop` event. -/
def interruptLoop {T : Type} (P : Behavior T) (s : BehaviorState T) (next : T) :
    BehaviorState T × List (TraceItem T) :=
  if h : P.filter_yield s.current next = true ∧ 0 < s.memory.length then
    match s.memory.getLast? with
    | some top =>
        let index := s.memory.length
        let previous := s.current
        let stopTrace :=
          invoke_stop previous top ++ [TraceItem.evt (.Stop ⟨index⟩ previous true)]
        let rest := interruptLoop P ⟨top, s.memory.dropLast⟩ next
        (rest.1, stopTrace ++ rest.2)
    | Option.none => (s, [])
  else (s, [])
termination_by s.memory.length
decreasing_by
  simp only [List.length_dropLast]
  omega

/-- Embedding of `BehaviorMutItem::interrupt` (`src/src/lib.rs`): unwind
then push, discarding the push result. -/
def interrupt {T : Type} (P : Behavior T) (s : BehaviorState T) (next : T) :
    BehaviorState T × List (TraceItem T) :=
  let unwind := interruptLoop P s next
  let pushed := push P unwind.1 next
  (pushed.1, unwind.2 ++ pushed.2.1)

/-- The unwind loop of `BehaviorMutItem::clear` (`src/src/lib.rs`):
while the current index is above `target.next()`, pop the top of
`Memory` (leaving the current slot untouched) and stop it with an
interrupt-flagged `Stop` event whose index is the pre-pop `Memory`
length. -/
def clearLoop {T : Type} (s : BehaviorState T) (target : BehaviorIndex) :
    BehaviorState T × List (TraceItem T) :=
  if h : target.next.val < s.memory.length then
    match s.memory.getLast?, s.memory.dropLast.getLast? with
    | some previous, some next =>
        let index := s.memory.length
        let stopTrace :=
          invoke_stop previous next ++ [TraceItem.evt (.Stop ⟨index⟩ previous true)]
        let rest := clearLoop ⟨s.current, s.memory.dropLast⟩ target
        (rest.1, stopTrace ++ rest.2)
    | _, _ => (s, [])
  else (s, [])
termination_by s.memory.length
decreasing_by
  simp only [List.length_dropLast]
  simp only [BehaviorIndex.next] at h
  omega

/-- Embedding of `BehaviorMutItem::clear` (`src/src/lib.rs`): stop every
state above `target.next()`, then perform a normal `pop`. -/
def clear {T : Type} (s : BehaviorState T) (target : BehaviorIndex) :
    BehaviorState T × List (TraceItem T) :=
  let unwind := clearLoop s target
  let popped := pop unwind.1
  (popped.1, unwind.2 ++ popped.2.1)

/-- An interruption request (`Interruption` in `src/src/transition.rs`). -/
inductive Interruption (T : Type) where
  | Start (next : T)
  | Resume (index : BehaviorIndex)
deriving DecidableEq, Repr

/-- The pending transition request slot (`Transition` in
`src/src/transition.rs`). -/
inductive Transition (T : Type) where
  | None
  | Next (next : T)
  | Interrupt (i : Interruption T)
  | Previous
deriving DecidableEq, Repr

/-- One deferred operation of a `TransitionQueue`
(`TransitionQueueItem` in `src/src/transition.rs`). -/
inductive TransitionQueueItem (T : Type) where
  | Start (next : T)
  | StartWait (next : T)
  | Stop
deriving DecidableEq, Repr

/-- The `TransitionQueue` component (`src/src/transition.rs`): a list of
deferred operations consumed front to back, and the `wait_for` gate. -/
structure TransitionQueue (T : Type) where
  queue : List (TransitionQueueItem T)
  wait_for : Option BehaviorIndex
deriving DecidableEq, Repr

/-- The pop-front part of `TransitionQueue::update`: consume the front
queue item and translate it into the transition request set for the next
tick; `StartWait` sets `wait_for` to `current_index().next()`. -/
def TransitionQueue.step {T : Type} (q : TransitionQueue T)
    (currentIndex : BehaviorIndex) : TransitionQueue T × Option (Transition T) :=
  match q.queue with
  | [] => (q, Option.none)
  | item :: rest =>
      match item with
      | .Start next => (⟨rest, Option.none⟩, some (.Next next))
      | .StartWait next => (⟨rest, some currentIndex.next⟩, some (.Next next))
      | .Stop => (⟨rest, Option.none⟩, some .Previous)

/-- Embedding of `TransitionQueue::update` (`src/src/transition.rs`):
if `wait_for` is set, the queue is left untouched unless this tick's
`Previous` stopped a behavior at exactly that index; otherwise the front
item is consumed. -/
def TransitionQueue.update {T : Type} (q : TransitionQueue T)
    (currentIndex : BehaviorIndex) (stopIndex : Option BehaviorIndex) :
    TransitionQueue T × Option (Transition T) :=
  match q.wait_for with
  | some wait_index =>
      match stopIndex with
      | some si => if wait_index ≠ si then (q, Option.none) else q.step currentIndex
      | Option.none => (q, Option.none)
  | Option.none => q.step currentIndex

/-- All per-entity data consumed by one iteration of the `transition`
system: the behavior value, the memory stack, the pending transition
slot, the optional queue, and whether the `Behavior` component was newly
added this tick (`is_added`). -/
structure EntityState (T : Type) where
  current : T
  memory : List T
  trans : Transition T
  queue : Option (TransitionQueue T)
  added : Bool
deriving DecidableEq, Repr

/-- Embedding of the per-entity body of the `transition` system
(`src/src/transition.rs`): the `is_added` bootstrap, the dispatch on the
taken transition request, and the queue bookkeeping.  Returns the entity
state after the tick (with the request slot holding whatever the queue
set for the next tick) and the trace produced this tick. -/
def tick {T : Type} (P : Behavior T) (e : EntityState T) :
    EntityState T × List (TraceItem T) :=
  let boot : List (TraceItem T) :=
    if e.added then invoke_start e.current Option.none ++ [.evt (.StartAdded ⟨0⟩)]
    else []
  let s : BehaviorState T := ⟨e.current, e.memory⟩
  let step : BehaviorState T × List (TraceItem T) × Option BehaviorIndex × Bool :=
    match e.trans with
    | .Next next =>
        ((push P s next).1, (push P s next).2.1, Option.none, !(push P s next).2.2)
    | .Previous =>
        ((pop s).1, (pop s).2.1, some s.index, !(pop s).2.2)
    | .Interrupt (.Start next) =>
        ((interrupt P s next).1, (interrupt P s next).2, Option.none, true)
    | .Interrupt (.Resume i) =>
        ((clear s i).1, (clear s i).2, Option.none, true)
    | .None => (s, [], Option.none, false)
  let s1 := step.1
  let interrupt_queue := step.2.2.2
  let qr : Option (TransitionQueue T) × Transition T :=
    match e.queue with
    | Option.none => (Option.none, Transition.None)
    | some q =>
        if interrupt_queue then (Option.none, Transition.None)
        else if q.queue.isEmpty then (Option.none, Transition.None)
        else
          ((q.update s1.index step.2.2.1).1,
            ((q.update s1.index step.2.2.1).2).getD Transition.None)
  (⟨s1.current, s1.memory, qr.2, qr.1, false⟩, boot ++ step.2.1)

/-- The read-only stack iterator (`BehaviorRefItem::iter`,
`src/src/lib.rs`): the `Memory` entries from the bottom up, then the
current behavior. -/
def iterStack {T : Type} (s : BehaviorState T) : List T :=
  s.memory ++ [s.current]

/-- The read-only enumerated iterator (`BehaviorRefItem::enumerate`,
`src/src/lib.rs`): the `Memory` entries paired with their indices, then
the pair of the current index and the current behavior. -/
def enumerateStack {T : Type} (s : BehaviorState T) :
    List (BehaviorIndex × T) :=
  (s.memory.enum.map fun p => ((⟨p.1⟩ : BehaviorIndex), p.2)) ++
    [(s.index, s.current)]

/-- Membership test for an index (`BehaviorRefItem::has_index`,
`src/src/lib.rs`): `index <= self.index()`. -/
def has_index {T : Type} (s : BehaviorState T) (i : BehaviorIndex) : Bool :=
  i.val ≤ s.index.val

/-- The `Index<BehaviorIndex>` implementation (`src/src/lib.rs`): the
current behavior at the current index, otherwise the `Memory` entry;
the out-of-bounds panic is modelled as `Option.none`. -/
def getIndex? {T : Type} (s : BehaviorState T) (i : BehaviorIndex) : Option T :=
  if i.val = s.memory.length then some s.current else s.memory[i.val]?

/-- Events of a trace, in order (the notifications observers receive). -/
def eventsOf {T : Type} (tr : List (TraceItem T)) : List (BehaviorEvent T) :=
  tr.filterMap fun item =>
    match item with
    | .evt e => some e
    | .hook _ => Option.none

/-- Hook invocations of a trace, in order. -/
def hooksOf {T : Type} (tr : List (TraceItem T)) : List (HookCall T) :=
  tr.filterMap fun item =>
    match item with
    | .hook h => some h
    | .evt _ => Option.none

/-- Checks that a trace item, if it is an interrupt-flagged `Stop`
event, carries an index of at least 1 (so the initial, index-0 behavior
is never stopped by an interrupt unwind). -/
def interruptStopPositive {T : Type} : TraceItem T → Bool
  | .evt (.Stop i _ true) => decide (1 ≤ i.val)
  | _ => true

/-- The four-state behavior type used by the repository's own test suite
(`src/src/tests.rs`). -/
inductive TV where
  | A
  | B
  | C
  | D
deriving DecidableEq, Repr

/-- The policy of the test behavior `T` of `src/src/tests.rs`:
`filter_next` allows `A→B`, `A→D`, `B→C`, `C→D`; `filter_yield` allows
only `B` to yield to `D`; every state is resumable (the default). -/
def tvPolicy : Behavior TV where
  filter_next := fun c n =>
    match c, n with
    | .A, .B => true
    | .A, .D => true
    | .B, .C => true
    | .C, .D => true
    | _, _ => false
  filter_yield := fun c n =>
    match c, n with
    | .B, .D => true
    | _, _ => false
  is_resumable := fun _ => true

/-- A policy over the same states in which every transition is allowed
but no state is resumable; used to exercise the non-resumable push path. -/
def nrPolicy : Behavior TV where
  filter_next := fun _ _ => true
  filter_yield := fun _ _ => true
  is_resumable := fun _ => false

/-- C1 counterexample: for an entity at `B` with `Memory = [A]` and a
pending `Previous`, the hooks do NOT run in the claimed order (displaced
behavior's `on_suspend`/`on_stop` first): the code runs the resumed
behavior's `on_resume`/`on_activate` first. -/
theorem c1_pop_hook_order_counterexample :
    ¬ hooksOf (tick tvPolicy ⟨TV.B, [TV.A], .Previous, Option.none, false⟩).2 =
      [.on_suspend TV.B TV.A, .on_stop TV.B TV.A,
        .on_resume TV.A TV.B, .on_activate TV.A (some TV.B)] := by
  decide

/-- C1 (amended): for every entity whose pending transition is
`Previous` with non-empty `Memory`, the engine pops the top of `Memory`
into the behavior slot; the hooks run in the order: the resumed
behavior's `on_resume` and `on_activate` first, then the displaced
behavior's `on_suspend` and `on_stop`; the notifications are emitted in
the order `Stop{index = old depth, behavior = previous,
interrupt = false}`, `Resume{index = new depth}`,
`Activate{index = new depth, resume = true}`. -/
theorem c1_pop_order (T : Type) (P : Behavior T) (cur top : T) (ms : List T) :
    tick P ⟨cur, ms ++ [top], .Previous, Option.none, false⟩ =
      (⟨top, ms, .None, Option.none, false⟩,
        [.hook (.on_resume top cur), .hook (.on_activate top (some cur)),
          .hook (.on_suspend cur top), .hook (.on_stop cur top),
          .evt (.Stop ⟨ms.length + 1⟩ cur false), .evt (.Resume ⟨ms.length⟩),
          .evt (.Activate ⟨ms.length⟩ true false)]) := by
  simp [tick, pop, invoke_resume, invoke_stop, List.getLast?_concat,
    List.dropLast_concat]

/-- C2: a `Behavior` component newly added this tick with the
pre-existing `Memory` stack `[A, B]` (the exact setup of the repo's own
`initial_load` test) produces a bootstrap trace that activates only the
current behavior `C` and triggers a single `Start` for index 0 — no
activation hooks or notifications for the pre-existing frames `A` and
`B` are synthesized, contradicting the `initial_load` test which
demands `on_start` to have run for all of `A`, `B` and `C`. -/
theorem c2_bootstrap_ignores_memory_frames :
    tick tvPolicy ⟨TV.C, [TV.A, TV.B], .None, Option.none, true⟩ =
      (⟨TV.C, [TV.A, TV.B], .None, Option.none, false⟩,
        [.hook (.on_start TV.C Option.none), .hook (.on_activate TV.C Option.none),
          .evt (.StartAdded ⟨0⟩)]) := by
  decide

/-- C3: a rejected `Next` (refused by `filter_next`) and a `Previous`
with empty `Memory` both leave the behavior state completely unmutated,
run no lifecycle hook, and emit exactly the corresponding error
notification (`RejectedNext` carrying the attempted behavior, or
`NoPrevious`). -/
theorem c3_failure_leaves_state_unmutated (T : Type) (P : Behavior T)
    (s : BehaviorState T) (next : T) :
    (P.filter_next s.current next = false →
      push P s next = (s, [.evt (.Error (.RejectedNext next))], false)) ∧
    (s.memory = [] →
      pop s = (s, [.evt (.Error .NoPrevious)], false)) := by
  constructor
  · intro h
    simp [push, h]
  · intro h
    simp [pop, h]

/-- C3 witness: the rejected push `A → C` and the pop at `A` with empty
memory, from the repository's test behavior. -/
theorem c3_failure_witness :
    push tvPolicy ⟨TV.A, []⟩ TV.C =
      (⟨TV.A, []⟩, [.evt (.Error (.RejectedNext TV.C))], false) ∧
    pop (⟨TV.A, []⟩ : BehaviorState TV) =
      (⟨TV.A, []⟩, [.evt (.Error .NoPrevious)], false) :=
  ⟨(c3_failure_leaves_state_unmutated TV tvPolicy ⟨TV.A, []⟩ TV.C).1 (by decide),
    (c3_failure_leaves_state_unmutated TV tvPolicy ⟨TV.A, []⟩ TV.C).2 rfl⟩

/-- C6: an accepted `Next` whose displaced behavior is not resumable
stops and discards the displaced behavior (memory unchanged, no
`Pause`), runs its `on_suspend` then `on_stop` hooks, and emits
`Stop{index = old depth, behavior = previous, interrupt = false}`,
`Start{index = old depth}`, `Activate{index = old depth,
resume = false}`. -/
theorem c6_nonresumable_push (T : Type) (P : Behavior T) (s : BehaviorState T)
    (next : T) (hnext : P.filter_next s.current next = true)
    (hres : P.is_resumable s.current = false) :
    push P s next =
      (⟨next, s.memory⟩,
        [.hook (.on_start next (some s.current)),
          .hook (.on_activate next (some s.current)),
          .hook (.on_suspend s.current next), .hook (.on_stop s.current next),
          .evt (.Stop ⟨s.memory.length⟩ s.current false),
          .evt (.Start ⟨s.memory.length⟩ false),
          .evt (.Activate ⟨s.memory.length⟩ false false)],
        true) := by
  simp [push, hnext, hres, invoke_start, invoke_stop]

/-- C6 witness: pushing `B` over the non-resumable `A`. -/
theorem c6_nonresumable_push_witness :
    push nrPolicy ⟨TV.A, []⟩ TV.B =
      (⟨TV.B, []⟩,
        [.hook (.on_start TV.B (some TV.A)), .hook (.on_activate TV.B (some TV.A)),
          .hook (.on_suspend TV.A TV.B), .hook (.on_stop TV.A TV.B),
          .evt (.Stop ⟨0⟩ TV.A false), .evt (.Start ⟨0⟩ false),
          .evt (.Activate ⟨0⟩ false false)],
        true) :=
  c6_nonresumable_push TV nrPolicy ⟨TV.A, []⟩ TV.B (by decide) (by decide)

/-- C7: an entity at resumable `a` with empty `Memory` and pending
`Next b` allowed by `filter_next` ends the tick at current `b`,
`Memory = [a]`, with exactly the notifications `Pause{0}`, `Start{1}`,
`Activate{1, resume = false}` in that order. -/
theorem c7_basic_push (T : Type) (P : Behavior T) (a b : T)
    (hnext : P.filter_next a b = true) (hres : P.is_resumable a = true) :
    tick P ⟨a, [], .Next b, Option.none, false⟩ =
      (⟨b, [a], .None, Option.none, false⟩,
        [.hook (.on_start b (some a)), .hook (.on_activate b (some a)),
          .hook (.on_suspend a b), .hook (.on_pause a b),
          .evt (.Pause ⟨0⟩), .evt (.Start ⟨1⟩ false),
          .evt (.Activate ⟨1⟩ false false)]) := by
  simp [tick, push, hnext, hres, invoke_start, invoke_pause]

/-- C7 witness: the basic push `A → B` of the repository's test
behavior. -/
theorem c7_basic_push_witness :
    tick tvPolicy ⟨TV.A, [], .Next TV.B, Option.none, false⟩ =
      (⟨TV.B, [TV.A], .None, Option.none, false⟩,
        [.hook (.on_start TV.B (some TV.A)), .hook (.on_activate TV.B (some TV.A)),
          .hook (.on_suspend TV.A TV.B), .hook (.on_pause TV.A TV.B),
          .evt (.Pause ⟨0⟩), .evt (.Start ⟨1⟩ false),
          .evt (.Activate ⟨1⟩ false false)]) :=
  c7_basic_push TV tvPolicy TV.A TV.B (by decide) (by decide)

/-- C9: the `BehaviorIndex` reported by the query surface is the length
of `Memory`, after `push`, `pop`, `interrupt` and `clear` and after any
engine tick, and `Memory` is empty exactly when the current behavior is
the initial (index 0) one. -/
theorem c9_memory_length_is_index (T : Type) (P : Behavior T)
    (s : BehaviorState T) (next : T) (target : BehaviorIndex)
    (e : EntityState T) :
    (push P s next).1.index = ⟨(push P s next).1.memory.length⟩ ∧
    (pop s).1.index = ⟨(pop s).1.memory.length⟩ ∧
    (interrupt P s next).1.index = ⟨(interrupt P s next).1.memory.length⟩ ∧
    (clear s target).1.index = ⟨(clear s target).1.memory.length⟩ ∧
    (BehaviorState.mk (tick P e).1.current (tick P e).1.memory).index =
      ⟨(tick P e).1.memory.length⟩ ∧
    (s.memory = [] ↔ s.index = BehaviorIndex.initial) := by
  refine ⟨rfl, rfl, rfl, rfl, rfl, ?_⟩
  simp [BehaviorState.index, BehaviorIndex.initial, BehaviorIndex.mk.injEq,
    List.length_eq_zero]

/-- C10: coherence of the read-only query surface: `iter` is the
`Memory` entries from the bottom followed by the current behavior;
`enumerate` pairs exactly the elements of `iter` with the ascending
indices `0 .. current`; `has_index i` holds exactly when `i` is at most
the current index; and indexing agrees with the position in the full
stack — the current index yields the current behavior and any smaller
index yields the `Memory` entry at that position. -/
theorem c10_query_surface (T : Type) (s : BehaviorState T) (j : Nat) :
    iterStack s = s.memory ++ [s.current] ∧
    enumerateStack s =
      (iterStack s).enum.map (fun p => ((⟨p.1⟩ : BehaviorIndex), p.2)) ∧
    (has_index s ⟨j⟩ = true ↔ j ≤ s.index.val) ∧
    getIndex? s ⟨j⟩ = (iterStack s)[j]? ∧
    (j = s.index.val → getIndex? s ⟨j⟩ = some s.current) ∧
    (j < s.index.val → getIndex? s ⟨j⟩ = s.memory[j]?) := by
  refine ⟨rfl, ?_, ?_, ?_, ?_, ?_⟩
  · simp [enumerateStack, iterStack, List.enum_append, List.enumFrom,
      BehaviorState.index]
  · simp [has_index]
  · by_cases hj : j = s.memory.length
    · subst hj
      simp [getIndex?, iterStack, List.getElem?_concat_length]
    · by_cases hlt : j < s.memory.length
      · simp [getIndex?, hj, iterStack, List.getElem?_append, hlt]
      · have hge : s.memory.length ≤ j := by omega
        have hone : ([s.current] : List T).length ≤ j - s.memory.length := by
          simp
          omega
        simp [getIndex?, hj, iterStack, List.getElem?_append,
          Nat.not_lt.mpr hge, List.getElem?_eq_none hge,
          List.getElem?_eq_none hone]
  · intro hj
    simp [getIndex?, BehaviorState.index] at hj ⊢
    simp [hj]
  · intro hj
    have hj' : j ≠ s.memory.length := by
      simp [BehaviorState.index] at hj
      omega
    simp [getIndex?, hj']

/-- C10 witness: the query surface of the stack with `Memory = [A]` and
current behavior `B`. -/
theorem c10_query_surface_witness :
    getIndex? (⟨TV.B, [TV.A]⟩ : BehaviorState TV) ⟨1⟩ = some TV.B ∧
    getIndex? (⟨TV.B, [TV.A]⟩ : BehaviorState TV) ⟨0⟩ = [TV.A][0]? ∧
    (has_index (⟨TV.B, [TV.A]⟩ : BehaviorState TV) ⟨2⟩ = true ↔ 2 ≤ 1) :=
  ⟨(c10_query_surface TV ⟨TV.B, [TV.A]⟩ 1).2.2.2.2.1 rfl,
    (c10_query_surface TV ⟨TV.B, [TV.A]⟩ 0).2.2.2.2.2 (by decide),
    (c10_query_surface TV ⟨TV.B, [TV.A]⟩ 2).2.2.1⟩

/-- C4 counterexample: an entity at the non-resumable `A` with the
queue `[StartWait B, Start C]`.  The first tick consumes the `StartWait`
item and sets `wait_for = 1`, but the second tick's push starts `B` at
index 0 (the depth did not grow because `A` was discarded), so the gate
does not hold the index the started behavior actually occupies, and in
particular it is not 0. -/
theorem c4_wait_for_counterexample :
    (tick nrPolicy ⟨TV.A, [], .None,
        some ⟨[.StartWait TV.B, .Start TV.C], Option.none⟩, false⟩).1 =
      ⟨TV.A, [], .Next TV.B, some ⟨[.Start TV.C], some ⟨1⟩⟩, false⟩ ∧
    eventsOf (tick nrPolicy
        (tick nrPolicy ⟨TV.A, [], .None,
          some ⟨[.StartWait TV.B, .Start TV.C], Option.none⟩, false⟩).1).2 =
      [.Stop ⟨0⟩ TV.A false, .Start ⟨0⟩ false, .Activate ⟨0⟩ false false] ∧
    ¬ (tick nrPolicy ⟨TV.A, [], .None,
        some ⟨[.StartWait TV.B, .Start TV.C], Option.none⟩, false⟩).1.queue =
      some ⟨[.Start TV.C], some ⟨0⟩⟩ := by
  refine ⟨by decide, by decide, by decide⟩

/-- C4 (amended): consuming a `StartWait b` queue item sets `wait_for`
to the current index plus one at the time the item is consumed — the
index the started behavior will occupy when the behavior current at
that moment is resumable (when it is not resumable the started behavior
occupies the unchanged current index instead, which the gate does not
match) — and while `wait_for` is set the queue makes no progress on a
tick whose request is not a `Previous` stopping a behavior at exactly
that index. -/
theorem c4_wait_for_amended (T : Type) (P : Behavior T)
    (q q' : TransitionQueue T) (ci : BehaviorIndex) (si : Option BehaviorIndex)
    (b : T) (rest : List (TransitionQueueItem T)) (w : BehaviorIndex)
    (e : EntityState T) :
    (q.wait_for = Option.none → q.queue = .StartWait b :: rest →
      q.update ci si = (⟨rest, some ci.next⟩, some (.Next b))) ∧
    (q.wait_for = some w → si ≠ some w → q.update ci si = (q, Option.none)) ∧
    (e.trans = .None → e.queue = some q' → q'.wait_for = some w →
      q'.queue ≠ [] →
      (tick P e).1.queue = some q' ∧ (tick P e).1.trans = .None) ∧
    (∀ (top : T) (ms : List T),
      e.trans = .Previous → e.memory = ms ++ [top] → e.queue = some q' →
      q'.wait_for = some w → q'.queue ≠ [] → w ≠ ⟨ms.length + 1⟩ →
      (tick P e).1.queue = some q' ∧ (tick P e).1.trans = .None) := by
  refine ⟨?_, ?_, ?_, ?_⟩
  · intro h1 h2
    simp [TransitionQueue.update, TransitionQueue.step, h1, h2]
  · intro h1 h2
    cases si with
    | none => simp [TransitionQueue.update, h1]
    | some v =>
        have hv : w ≠ v := fun hh => h2 (by rw [hh])
        simp [TransitionQueue.update, h1, hv]
  · intro h1 h2 h3 h4
    obtain ⟨cur, mem, tr, qu, ad⟩ := e
    simp only at h1 h2
    subst h1
    subst h2
    simp [tick, TransitionQueue.update, h3, List.isEmpty_eq_false.mpr h4]
  · intro top ms h1 h2 h3 h4 h5 h6
    obtain ⟨cur, mem, tr, qu, ad⟩ := e
    simp only at h1 h2 h3
    subst h1
    subst h2
    subst h3
    simp [tick, pop, TransitionQueue.update, BehaviorState.index, h4,
      List.isEmpty_eq_false.mpr h5, List.getLast?_concat, List.dropLast_concat, h6]

/-- C4 amended witness: concrete instances for each clause — consuming
`StartWait B` at index 0 sets the gate to 1; a gated queue is untouched
on a tick with no request and on a `Previous` stopping index 1 while
waiting for index 2. -/
theorem c4_wait_for_amended_witness :
    TransitionQueue.update ⟨[.StartWait TV.B], Option.none⟩ ⟨0⟩ Option.none =
      (⟨[], some ⟨1⟩⟩, some (.Next TV.B)) ∧
    TransitionQueue.update (⟨[.Start TV.C], some ⟨1⟩⟩ : TransitionQueue TV)
        ⟨0⟩ Option.none = (⟨[.Start TV.C], some ⟨1⟩⟩, Option.none) ∧
    (tick nrPolicy ⟨TV.B, [], .None, some ⟨[.Start TV.C], some ⟨1⟩⟩,
        false⟩).1.queue = some ⟨[.Start TV.C], some ⟨1⟩⟩ ∧
    (tick tvPolicy ⟨TV.B, [TV.A], .Previous, some ⟨[.Start TV.C], some ⟨2⟩⟩,
        false⟩).1.queue = some ⟨[.Start TV.C], some ⟨2⟩⟩ :=
  ⟨(c4_wait_for_amended TV nrPolicy ⟨[.StartWait TV.B], Option.none⟩
      ⟨[], Option.none⟩ ⟨0⟩ Option.none TV.B [] ⟨0⟩
      ⟨TV.A, [], .None, Option.none, false⟩).1 rfl rfl,
    (c4_wait_for_amended TV nrPolicy ⟨[.Start TV.C], some ⟨1⟩⟩
      ⟨[], Option.none⟩ ⟨0⟩ Option.none TV.B [] ⟨1⟩
      ⟨TV.A, [], .None, Option.none, false⟩).2.1 rfl (by decide),
    ((c4_wait_for_amended TV nrPolicy ⟨[], Option.none⟩
      ⟨[.Start TV.C], some ⟨1⟩⟩ ⟨0⟩ Option.none TV.B [] ⟨1⟩
      ⟨TV.B, [], .None, some ⟨[.Start TV.C], some ⟨1⟩⟩, false⟩).2.2.1
      rfl rfl rfl (by decide)).1,
    ((c4_wait_for_amended TV tvPolicy ⟨[], Option.none⟩
      ⟨[.Start TV.C], some ⟨2⟩⟩ ⟨0⟩ Option.none TV.B [] ⟨2⟩
      ⟨TV.B, [TV.A], .Previous, some ⟨[.Start TV.C], some ⟨2⟩⟩, false⟩).2.2.2
      TV.A [] rfl rfl rfl rfl (by decide) (by decide)).1⟩

/-- C8: for an entity carrying a `TransitionQueue`, the queue component
is removed by the tick exactly when the processed request was an
`Interrupt` variant, or a processed `Next` was rejected by
`filter_next`, or a processed `Previous` found an empty `Memory`, or the
queue is empty; a failed `Next` therefore discards the remaining items
rather than retrying them. -/
theorem c8_queue_removal (T : Type) (P : Behavior T) (e : EntityState T)
    (q : TransitionQueue T) (hq : e.queue = some q) :
    ((tick P e).1.queue = Option.none ↔
      (∃ i, e.trans = .Interrupt i) ∨
      (∃ n, e.trans = .Next n ∧ P.filter_next e.current n = false) ∨
      (e.trans = .Previous ∧ e.memory = []) ∨
      q.queue = []) := by
  obtain ⟨cur, mem, tr, qu, ad⟩ := e
  simp only at hq ⊢
  subst hq
  cases tr with
  | None =>
      by_cases hqe : q.queue = []
      · simp [tick, hqe]
      · simp [tick, hqe, List.isEmpty_eq_false.mpr hqe]
  | Next n =>
      by_cases hf : P.filter_next cur n = true
      · have hok : (push P ⟨cur, mem⟩ n).2.2 = true := by
          simp only [push, hf, if_true]
          split <;> rfl
        by_cases hqe : q.queue = []
        · simp [tick, hok, hqe, hf]
        · simp [tick, hok, hqe, hf, List.isEmpty_eq_false.mpr hqe]
      · have hf' : P.filter_next cur n = false := by
          simpa using hf
        have hok : (push P ⟨cur, mem⟩ n).2.2 = false := by
          simp [push, hf']
        simp [tick, hok, hf']
  | Previous =>
      rcases List.eq_nil_or_concat mem with hm | ⟨ms, top, hm⟩
      · subst hm
        simp [tick, pop]
      · subst hm
        simp only [List.concat_eq_append]
        have hok : (pop (⟨cur, ms ++ [top]⟩ : BehaviorState T)).2.2 = true := by
          simp [pop, List.getLast?_concat]
        by_cases hqe : q.queue = []
        · simp [tick, hok, hqe]
        · simp [tick, hok, hqe, List.isEmpty_eq_false.mpr hqe]
  | Interrupt i =>
      cases i with
      | Start next => simp [tick]
      | Resume idx => simp [tick]

/-- C8 witness: a rejected `Next` inside a running queue removes the
queue component. -/
theorem c8_queue_removal_witness :
    ((tick tvPolicy ⟨TV.A, [], .Next TV.C, some ⟨[.Start TV.B], Option.none⟩,
        false⟩).1.queue = Option.none ↔
      (∃ i, (Transition.Next TV.C) = .Interrupt i) ∨
      (∃ n, (Transition.Next TV.C) = .Next n ∧
        tvPolicy.filter_next TV.A n = false) ∨
      ((Transition.Next TV.C) = .Previous ∧ ([] : List TV) = []) ∨
      ([TransitionQueueItem.Start TV.B] : List (TransitionQueueItem TV)) = []) :=
  c8_queue_removal TV tvPolicy
    ⟨TV.A, [], .Next TV.C, some ⟨[.Start TV.B], Option.none⟩, false⟩
    ⟨[.Start TV.B], Option.none⟩ rfl

/-- Every interrupt-flagged `Stop` event of the interrupt unwind loop
carries an index of at least 1: the loop only runs while `Memory` is
non-empty, so the stopped current behavior is never at index 0. -/
theorem interruptLoop_stop_positive {T : Type} (P : Behavior T)
    (s : BehaviorState T) (next : T) :
    (interruptLoop P s next).2.all interruptStopPositive = true := by
  induction s, next using interruptLoop.induct (P := P) with
  | case1 s next hcond top hlast ih =>
      rw [interruptLoop, dif_pos hcond, hlast]
      dsimp only
      have hix : 1 ≤ s.memory.length := hcond.2
      simp [List.all_append, invoke_stop, interruptStopPositive, ih, hix]
  | case2 s next hcond hlast =>
      exfalso
      have hnil := List.getLast?_eq_none_iff.mp hlast
      rw [hnil] at hcond
      simp at hcond
  | case3 s next hcond =>
      rw [interruptLoop, dif_neg hcond]
      rfl

/-- Every interrupt-flagged `Stop` event of the `clear` unwind loop
carries an index of at least 1: the loop only runs while the current
index is above `target.next()`, so `Memory` holds at least two entries. -/
theorem clearLoop_stop_positive {T : Type} (s : BehaviorState T)
    (target : BehaviorIndex) :
    (clearLoop s target).2.all interruptStopPositive = true := by
  induction s, target using clearLoop.induct with
  | case1 s target hcond previous next hlast2 hlast1 ih =>
      rw [clearLoop, dif_pos hcond, hlast1, hlast2]
      dsimp only
      have hix : 1 ≤ s.memory.length := by
        simp only [BehaviorIndex.next] at hcond
        omega
      simp [List.all_append, invoke_stop, interruptStopPositive, ih, hix]
  | case2 s target hcond himp =>
      rw [clearLoop, dif_pos hcond]
      rcases h1 : s.memory.getLast? with _ | previous
      · rfl
      · rcases h2 : s.memory.dropLast.getLast? with _ | nxt
        · rfl
        · exact absurd trivial (fun _ => himp previous nxt h1 h2)
  | case3 s target hcond =>
      rw [clearLoop, dif_neg hcond]
      rfl

/-- The interrupt unwind loop preserves the bottom of the conceptual
stack (the `Memory` entries followed by the current behavior): each
iteration removes only the top element. -/
theorem interruptLoop_preserves_bottom {T : Type} (P : Behavior T)
    (s : BehaviorState T) (next : T) :
    ((interruptLoop P s next).1.memory ++
        [(interruptLoop P s next).1.current]).head? =
      (s.memory ++ [s.current]).head? := by
  induction s, next using interruptLoop.induct (P := P) with
  | case1 s next hcond top hlast ih =>
      rw [interruptLoop, dif_pos hcond, hlast]
      dsimp only
      have hstack : s.memory.dropLast ++ [top] = s.memory :=
        List.dropLast_append_getLast? top (Option.mem_def.mpr hlast)
      dsimp only at ih
      rw [ih, hstack]
      rcases hm : s.memory with _ | ⟨a, l⟩
      · exfalso
        rw [hm] at hcond
        simp at hcond
      · simp
  | case2 s next hcond hlast =>
      exfalso
      have hnil := List.getLast?_eq_none_iff.mp hlast
      rw [hnil] at hcond
      simp at hcond
  | case3 s next hcond =>
      rw [interruptLoop, dif_neg hcond]

/-- The interrupt unwind loop halts exactly when `Memory` is exhausted
or the current behavior refuses to yield to the incoming behavior. -/
theorem interruptLoop_halts {T : Type} (P : Behavior T)
    (s : BehaviorState T) (next : T) :
    (interruptLoop P s next).1.memory = [] ∨
      P.filter_yield (interruptLoop P s next).1.current next = false := by
  induction s, next using interruptLoop.induct (P := P) with
  | case1 s next hcond top hlast ih =>
      rw [interruptLoop, dif_pos hcond, hlast]
      dsimp only
      exact ih
  | case2 s next hcond hlast =>
      exfalso
      have hnil := List.getLast?_eq_none_iff.mp hlast
      rw [hnil] at hcond
      simp at hcond
  | case3 s next hcond =>
      rw [interruptLoop, dif_neg hcond]
      rcases Decidable.not_and_iff_or_not.mp hcond with h | h
      · right
        simpa using h
      · left
        have hlen : s.memory.length = 0 := by omega
        exact List.length_eq_zero.mp hlen

/-- C5: the initial (index-0) behavior is protected: every
interrupt-flagged `Stop` emitted by the `interrupt` unwind loop (and by
the `clear` unwind loop) has index at least 1; the unwind loop
preserves the bottom of the conceptual stack and halts exactly when
`Memory` is empty or the current behavior refuses to yield; `pop` at
the initial behavior fails (the initial behavior is never popped); and
`BehaviorIndex.initial.previous` is none. -/
theorem c5_initial_never_stopped (T : Type) (P : Behavior T)
    (s : BehaviorState T) (next : T) (target : BehaviorIndex) (c : T) :
    (interruptLoop P s next).2.all interruptStopPositive = true ∧
    (clearLoop s target).2.all interruptStopPositive = true ∧
    ((interruptLoop P s next).1.memory ++
        [(interruptLoop P s next).1.current]).head? =
      (s.memory ++ [s.current]).head? ∧
    ((interruptLoop P s next).1.memory = [] ∨
      P.filter_yield (interruptLoop P s next).1.current next = false) ∧
    pop (⟨c, []⟩ : BehaviorState T) =
      (⟨c, []⟩, [.evt (.Error .NoPrevious)], false) ∧
    BehaviorIndex.initial.previous = Option.none :=
  ⟨interruptLoop_stop_positive P s next, clearLoop_stop_positive s target,
    interruptLoop_preserves_bottom P s next, interruptLoop_halts P s next,
    rfl, by decide⟩

end MoonshineBehavior
